import Mathlib

/-!
Verification of the MongoDB state-management layer of TestCycle-Automation
(src/mongoManager.py) against its natural-language specification.

The manager is shallowly embedded: BSON documents become association lists
of field name to value, each tenant database (`test_automation_<hospital>`)
becomes a record of collections, and the global Mongo server becomes a map
from database name to tenant database.  `datetime.utcnow()` is passed in
explicitly as an integer timestamp (seconds); `timedelta(hours=h)` is
`h * 3600` and `timedelta(days=d)` is `d * 86400`.  Fallible operations
return `Except DBError`.
-/

/-- A BSON-ish value.  The manager only ever inspects strings, integers
(timestamps, durations), booleans and lists of strings (selector sets);
payloads the code treats as opaque are representable by any constructor. -/
inductive Value where
  | str (s : String)
  | int (n : ℤ)
  | bool (b : Bool)
  | strList (xs : List String)
deriving DecidableEq

/-- A document: an insertion-ordered association list of fields, which is
how both Python dicts and BSON documents behave. -/
abbrev Doc := List (String × Value)

/-- Field lookup: first binding of the key wins (Python dict `d[k]` /
`d.get(k)`, Mongo field access). -/
def getF : Doc → String → Option Value
  | [], _ => none
  | (k', v) :: rest, k => if k' = k then some v else getF rest k

/-- Field write: replace the first binding of the key in place, else append
(Python `d[k] = v` and Mongo `$set` both preserve field order and append
new fields at the end). -/
def setF : Doc → String → Value → Doc
  | [], k, v => [(k, v)]
  | (k', v') :: rest, k, v =>
      if k' = k then (k, v) :: rest else (k', v') :: setF rest k v

/-- Apply every binding of `u` to `d` in order (Python `d.update(u)`,
Mongo `$set` with update document `u`). -/
def applySet (u : Doc) (d : Doc) : Doc :=
  u.foldl (fun acc kv => setF acc kv.1 kv.2) d

/-- The value the last binding of `k` in `u` carries, if any. -/
def lastVal : Doc → String → Option Value
  | [], _ => none
  | (k', v) :: rest, k =>
      match lastVal rest k with
      | some w => some w
      | none => if k' = k then some v else none

/-- A Mongo collection: stored documents in insertion order plus a counter
standing in for the ObjectId generator. -/
structure Collection where
  docs : List Doc := []
  nextId : ℕ := 0
deriving DecidableEq

/-- Model of `insert_one`: assign an `_id` when the caller did not supply one,
append, and return `str(result.inserted_id)`. -/
def Collection.insertOne (c : Collection) (d : Doc) : String × Collection :=
  let d' := if (getF d "_id").isSome then d
            else setF d "_id" (Value.str (toString c.nextId))
  let i := match getF d' "_id" with
           | some (Value.str s) => s
           | _ => toString c.nextId
  (i, ⟨c.docs ++ [d'], c.nextId + 1⟩)

/-- Model of `update_one(filter, set)` on the stored list: rewrite the first
document matching `p` with `f` and report whether it actually changed
(Mongo `modified_count > 0`); leave everything else untouched. -/
def updateFirst (p : Doc → Bool) (f : Doc → Doc) : List Doc → List Doc × Bool
  | [] => ([], false)
  | d :: rest =>
      if p d then (f d :: rest, decide (f d ≠ d))
      else
        let r := updateFirst p f rest
        (d :: r.1, r.2)

/-- One tenant database (`test_automation_<hospital_id>`), holding the six
collections the constructor names. -/
structure TenantDB where
  test_cases : Collection := {}
  executions : Collection := {}
  self_heal : Collection := {}
  ui_snapshots : Collection := {}
  code_changes : Collection := {}
  llm_cache : Collection := {}
deriving DecidableEq

/-- The Mongo server: every database name resolves to a database
(an untouched name resolves to an empty one). -/
abbrev Store := String → TenantDB

/-- The database name a manager constructed for `hospital_id` operates on:
the source interpolates the hospital id after the fixed
`test_automation_` prefix (database-per-tenant strategy). -/
def dbName (hospital_id : String) : String :=
  "test_automation_" ++ hospital_id

/-- The failure taxonomy the manager surfaces. -/
inductive DBError where
  | duplicateKey
deriving DecidableEq

def emptyStore : Store := fun _ => {}

/-- The `timestamp` field of a document, read as an integer (documents the
manager itself stamps always carry one). -/
def tsOf (d : Doc) : ℤ :=
  match getF d "timestamp" with
  | some (Value.int t) => t
  | _ => 0

/-- Model of `find_one(filter, sort=[("timestamp", DESCENDING)])` on an already
filtered list: the first document carrying the maximum timestamp
(Mongo's sort is stable, so earlier insertions win ties). -/
def pickLatest : List Doc → Option Doc
  | [] => none
  | d :: rest =>
      match pickLatest rest with
      | none => some d
      | some m => if tsOf d < tsOf m then some m else some d

/-- Model of `previous.get("selectors", [])`, read as a list of selector strings. -/
def selectorsOf (d : Doc) : List String :=
  match getF d "selectors" with
  | some (Value.strList xs) => xs
  | _ => []

/-- Aggregation `$max: "$timestamp"` over a group: the maximum integer
timestamp, ignoring documents without one (Mongo ignores missing values). -/
def maxTs : List Doc → Option ℤ :=
  List.foldl
    (fun acc d =>
      match getF d "timestamp" with
      | some (Value.int t) =>
          match acc with
          | some m => some (max m t)
          | none => some t
      | _ => acc)
    none

/-- One output document of the `get_flaky_tests` aggregation pipeline. -/
structure FlakyGroup where
  id : Option Value
  total_runs : ℕ
  pass_count : ℕ
  pass_rate : ℚ
  latest_execution : Option ℤ
deriving DecidableEq

/-- The `$group` / `$addFields` stages of the pipeline for one value of
`test_case_id`: run totals, pass count, latest execution, pass rate. -/
def mkGroup (k : Option Value) (execs : List Doc) : FlakyGroup :=
  let g := execs.filter (fun d => decide (getF d "test_case_id" = k))
  let total := g.length
  let pass := (g.filter (fun d => decide (getF d "status" = some (Value.str "passed")))).length
  ⟨k, total, pass, (pass : ℚ) / (total : ℚ), maxTs g⟩

/-- The `$sort: pass_rate ascending` order of the pipeline. -/
def flakyLE (a b : FlakyGroup) : Prop := a.pass_rate ≤ b.pass_rate

instance : DecidableRel flakyLE :=
  fun a b => inferInstanceAs (Decidable (a.pass_rate ≤ b.pass_rate))

instance : IsTotal FlakyGroup flakyLE := ⟨fun a b => le_total a.pass_rate b.pass_rate⟩

instance : IsTrans FlakyGroup flakyLE := ⟨fun _ _ _ hab hbc => le_trans hab hbc⟩

/-- Model of `sort("timestamp", DESCENDING)` as a relation on documents. -/
def tsGE (a b : Doc) : Prop := tsOf b ≤ tsOf a

instance : DecidableRel tsGE :=
  fun a b => inferInstanceAs (Decidable (tsOf b ≤ tsOf a))

/-- Filter `"test_id": tid`. -/
def tidPred (tid : String) : Doc → Bool :=
  fun d => decide (getF d "test_id" = some (Value.str tid))

/-- Filter `"_id": heal_id` (ids round-trip as strings here, eliding the
ObjectId representation of the storage layer). -/
def healPred (heal_id : String) : Doc → Bool :=
  fun d => decide (getF d "_id" = some (Value.str heal_id))

/-- Filter `"prompt_hash": h`. -/
def hashPred (h : String) : Doc → Bool :=
  fun d => decide (getF d "prompt_hash" = some (Value.str h))

/-- Filter clause `"expires_at": $gt now` (a missing or non-numeric
`expires_at` never matches). -/
def liveAt (now : ℤ) : Doc → Bool :=
  fun d =>
    match getF d "expires_at" with
    | some (Value.int e) => decide (now < e)
    | _ => false

/-- The in-place `test_case.update(...)` of `create_test_case`: stamp
tenant, `created_at`, `last_modified` and force `status = "active"`. -/
def stampTestCase (hospital_id : String) (now : ℤ) (tc : Doc) : Doc :=
  setF (setF (setF (setF tc "hospital" (Value.str hospital_id))
    "created_at" (Value.int now)) "last_modified" (Value.int now))
    "status" (Value.str "active")

/-- Model of `create_test_case` against one tenant database: stamp the caller's
dict in place, then `insert_one`, which raises `DuplicateKeyError` when
the unique index on `test_id` is violated.  Returns the outcome, the
(mutated) argument dict, and the database afterwards. -/
def create_test_case_db (hospital_id : String) (tc : Doc) (now : ℤ)
    (db : TenantDB) : Except DBError String × Doc × TenantDB :=
  let stamped := stampTestCase hospital_id now tc
  if db.test_cases.docs.any (fun d => decide (getF d "test_id" = getF stamped "test_id")) then
    (Except.error DBError.duplicateKey, stamped, db)
  else
    let r := db.test_cases.insertOne stamped
    (Except.ok r.1, stamped, { db with test_cases := r.2 })

/-- Model of `get_test_case`: `find_one` on `test_id`. -/
def get_test_case_db (tid : String) (db : TenantDB) : Option Doc :=
  db.test_cases.docs.find? (tidPred tid)

/-- Model of `update_test_case`: refresh `last_modified` in the caller's dict,
`update_one` with `$set`, return `modified_count > 0` plus the mutated
update dict and the database afterwards. -/
def update_test_case_db (tid : String) (updates : Doc) (now : ℤ)
    (db : TenantDB) : Bool × Doc × TenantDB :=
  let u := setF updates "last_modified" (Value.int now)
  let r := updateFirst (tidPred tid) (applySet u) db.test_cases.docs
  (r.2, u, { db with test_cases := ⟨r.1, db.test_cases.nextId⟩ })

/-- The in-place `execution_data.update(...)` of `record_execution`. -/
def stampExecution (hospital_id : String) (now : ℤ) (ed : Doc) : Doc :=
  setF (setF ed "hospital" (Value.str hospital_id)) "timestamp" (Value.int now)

/-- Model of `record_execution`: stamp tenant and timestamp, append. -/
def record_execution_db (hospital_id : String) (ed : Doc) (now : ℤ)
    (db : TenantDB) : String × Doc × TenantDB :=
  let stamped := stampExecution hospital_id now ed
  let r := db.executions.insertOne stamped
  (r.1, stamped, { db with executions := r.2 })

/-- Model of `get_execution_history`: filter by `test_case_id`, newest first,
up to `limit`. -/
def get_execution_history_db (tcid : String) (limit : ℕ) (db : TenantDB) :
    List Doc :=
  (List.insertionSort tsGE
    (db.executions.docs.filter
      (fun d => decide (getF d "test_case_id" = some (Value.str tcid))))).take limit

/-- Model of `get_flaky_tests`: group all executions by `test_case_id`, keep groups
with at least 5 runs and pass rate inside the inclusive band, sort by
ascending pass rate. -/
def get_flaky_tests_db (pass_rate_min pass_rate_max : ℚ) (db : TenantDB) :
    List FlakyGroup :=
  let docs := db.executions.docs
  let keys := (docs.map (fun d => getF d "test_case_id")).dedup
  let groups := keys.map (fun k => mkGroup k docs)
  let kept := groups.filter
    (fun g => decide (pass_rate_min ≤ g.pass_rate) &&
      decide (g.pass_rate ≤ pass_rate_max) && decide (5 ≤ g.total_runs))
  List.insertionSort flakyLE kept

/-- The in-place `heal_data.update(...)` of `record_self_heal_decision`:
tenant, timestamp, and `engineer_approved` defaulted to `False` when the
caller did not set it. -/
def stampHeal (hospital_id : String) (now : ℤ) (hd : Doc) : Doc :=
  setF (setF (setF hd "hospital" (Value.str hospital_id))
    "timestamp" (Value.int now))
    "engineer_approved"
    (match getF hd "engineer_approved" with
     | some v => v
     | none => Value.bool false)

/-- Model of `record_self_heal_decision`: stamp and append. -/
def record_self_heal_db (hospital_id : String) (hd : Doc) (now : ℤ)
    (db : TenantDB) : String × Doc × TenantDB :=
  let stamped := stampHeal hospital_id now hd
  let r := db.self_heal.insertOne stamped
  (r.1, stamped, { db with self_heal := r.2 })

/-- Model of `get_pending_approvals`: all decisions with `engineer_approved = False`,
newest first. -/
def get_pending_approvals_db (db : TenantDB) : List Doc :=
  List.insertionSort tsGE
    (db.self_heal.docs.filter
      (fun d => decide (getF d "engineer_approved" = some (Value.bool false))))

/-- The `$set` document of `approve_self_heal`. -/
def approveSet (engineer_notes : String) (now : ℤ) (d : Doc) : Doc :=
  setF (setF (setF d "engineer_approved" (Value.bool true))
    "approved_at" (Value.int now)) "engineer_notes" (Value.str engineer_notes)

/-- Model of `approve_self_heal`: `update_one` filtered on `_id` only, `$set`
approval fields, return `modified_count > 0`. -/
def approve_self_heal_db (heal_id : String) (engineer_notes : String)
    (now : ℤ) (db : TenantDB) : Bool × TenantDB :=
  let r := updateFirst (healPred heal_id) (approveSet engineer_notes now)
    db.self_heal.docs
  (r.2, { db with self_heal := ⟨r.1, db.self_heal.nextId⟩ })

/-- Tokenised text match standing in for the document store's `$text`
search (an external collaborator; the spec treats it as an approximate,
heuristic lookup): the query and the stored `failure_reason` share a
whitespace-separated token. -/
def textMatch (query : String) (d : Doc) : Bool :=
  match getF d "failure_reason" with
  | some (Value.str s) =>
      (s.splitOn " ").any (fun tok => tok ≠ "" && (query.splitOn " ").contains tok)
  | _ => false

/-- Model of `find_similar_past_heals`: text match restricted to approved
decisions, capped at `limit`. -/
def find_similar_past_heals_db (failure_reason : String) (limit : ℕ)
    (db : TenantDB) : List Doc :=
  (db.self_heal.docs.filter
    (fun d => textMatch failure_reason d &&
      decide (getF d "engineer_approved" = some (Value.bool true)))).take limit

/-- The in-place `ui_data.update(...)` of `save_ui_snapshot`. -/
def stampSnapshot (hospital_id : String) (now : ℤ) (ud : Doc) : Doc :=
  setF (setF ud "hospital" (Value.str hospital_id)) "timestamp" (Value.int now)

/-- Model of `save_ui_snapshot`: stamp and append. -/
def save_ui_snapshot_db (hospital_id : String) (ud : Doc) (now : ℤ)
    (db : TenantDB) : String × Doc × TenantDB :=
  let stamped := stampSnapshot hospital_id now ud
  let r := db.ui_snapshots.insertOne stamped
  (r.1, stamped, { db with ui_snapshots := r.2 })

/-- Model of `get_latest_ui_snapshot`: the snapshot for the page with the maximum
timestamp, or absent. -/
def get_latest_ui_snapshot_db (page_identifier : String) (db : TenantDB) :
    Option Doc :=
  pickLatest
    (db.ui_snapshots.docs.filter
      (fun d => decide (getF d "page_identifier" = some (Value.str page_identifier))))

/-- One entry of the `changes` list of `detect_ui_changes`. -/
structure DiffChange where
  type : String
  selectors : Finset String
deriving DecidableEq

/-- The result dict of `detect_ui_changes`; `has_changes` and
`previous_timestamp` are `none` on the first-observation result, whose
dict does not carry those keys. -/
structure DiffResult where
  is_new : Bool
  has_changes : Option Bool
  changes : List DiffChange
  previous_timestamp : Option Value
deriving DecidableEq

/-- Model of `detect_ui_changes`: compare the caller's snapshot against the latest
stored one by plain set difference of the selector sets. -/
def detect_ui_changes_db (page_identifier : String) (current_snapshot : Doc)
    (db : TenantDB) : DiffResult :=
  match get_latest_ui_snapshot_db page_identifier db with
  | none => ⟨true, none, [], none⟩
  | some previous =>
      let prev_selectors := (selectorsOf previous).toFinset
      let curr_selectors := (selectorsOf current_snapshot).toFinset
      let removed := prev_selectors \ curr_selectors
      let added := curr_selectors \ prev_selectors
      let changes :=
        (if removed = ∅ then [] else [⟨"removed", removed⟩]) ++
        (if added = ∅ then [] else [⟨"added", added⟩])
      ⟨false, some (decide (0 < changes.length)), changes,
        getF previous "timestamp"⟩

/-- The `$set` document of `cache_llm_context`. -/
def cacheSets (context_data : Value) (ttl_hours now : ℤ) : Doc :=
  [("context_data", context_data), ("created_at", Value.int now),
   ("expires_at", Value.int (now + ttl_hours * 3600))]

/-- Model of `cache_llm_context`: `update_one(..., upsert=True)` keyed on
`prompt_hash`; `$set` replaces the payload and pushes `expires_at` to
`now + ttl_hours` hours. -/
def cache_llm_context_db (prompt_hash : String) (context_data : Value)
    (ttl_hours now : ℤ) (db : TenantDB) : TenantDB :=
  let sets : Doc := cacheSets context_data ttl_hours now
  let c := db.llm_cache
  if (c.docs.find? (hashPred prompt_hash)).isSome then
    { db with llm_cache :=
        ⟨(updateFirst (hashPred prompt_hash) (applySet sets) c.docs).1, c.nextId⟩ }
  else
    { db with llm_cache :=
        (c.insertOne (applySet sets [("prompt_hash", Value.str prompt_hash)])).2 }

/-- Model of `get_cached_context`: `find_one` on the hash with a mandatory
`expires_at > now` clause; an expired or missing entry is a plain miss. -/
def get_cached_context_db (prompt_hash : String) (now : ℤ) (db : TenantDB) :
    Option Value :=
  (db.llm_cache.docs.find?
      (fun d => hashPred prompt_hash d && liveAt now d)).bind
    (fun d => getF d "context_data")

/-- The `$match` window of `get_self_heal_success_rate`: decisions with
`timestamp` at or after `now` minus `days` days. -/
def healWindow (days now : ℤ) (db : TenantDB) : List Doc :=
  db.self_heal.docs.filter
    (fun d =>
      match getF d "timestamp" with
      | some (Value.int t) => decide (now - days * 86400 ≤ t)
      | _ => false)

/-- Model of `get_self_heal_success_rate`: approved over total inside the window,
`0.0` when the window is empty. -/
def get_self_heal_success_rate_db (days now : ℤ) (db : TenantDB) : ℚ :=
  let window := healWindow days now db
  if window.length = 0 then 0
  else
    ((window.filter
        (fun d => decide (getF d "engineer_approved" = some (Value.bool true)))).length : ℚ) /
      (window.length : ℚ)

/-- One per-status entry of `get_test_execution_stats`: status value,
count, average duration (absent when no numeric durations exist). -/
abbrev StatEntry := Option Value × ℕ × Option ℚ

/-- Model of `get_test_execution_stats`: group the window by `status` with count
and average `duration_ms`. -/
def get_test_execution_stats_db (days now : ℤ) (db : TenantDB) :
    List StatEntry :=
  let window := db.executions.docs.filter
    (fun d =>
      match getF d "timestamp" with
      | some (Value.int t) => decide (now - days * 86400 ≤ t)
      | _ => false)
  let keys := (window.map (fun d => getF d "status")).dedup
  keys.map (fun k =>
    let grp := window.filter (fun d => decide (getF d "status" = k))
    let durs := grp.filterMap (fun d =>
      match getF d "duration_ms" with
      | some (Value.int n) => some n
      | _ => none)
    (k, grp.length,
      if durs.length = 0 then none
      else some ((durs.sum : ℚ) / (durs.length : ℚ))))

/-- Model of `MongoDBManager.create_test_case` for the manager of `hospital_id`:
outcome, the caller's dict after the in-place mutation, and the server
state afterwards. -/
def create_test_case (hospital_id : String) (test_case : Doc) (now : ℤ)
    (s : Store) : Except DBError String × Doc × Store :=
  let r := create_test_case_db hospital_id test_case now (s (dbName hospital_id))
  (r.1, r.2.1, Function.update s (dbName hospital_id) r.2.2)

/-- Model of `MongoDBManager.get_test_case`. -/
def get_test_case (hospital_id : String) (test_id : String) (s : Store) :
    Option Doc :=
  get_test_case_db test_id (s (dbName hospital_id))

/-- Model of `MongoDBManager.update_test_case`: whether a document changed, the
caller's update dict after the in-place `last_modified` refresh, and the
server state afterwards. -/
def update_test_case (hospital_id : String) (test_id : String)
    (updates : Doc) (now : ℤ) (s : Store) : Bool × Doc × Store :=
  let r := update_test_case_db test_id updates now (s (dbName hospital_id))
  (r.1, r.2.1, Function.update s (dbName hospital_id) r.2.2)

/-- Model of `MongoDBManager.record_execution`. -/
def record_execution (hospital_id : String) (execution_data : Doc) (now : ℤ)
    (s : Store) : String × Doc × Store :=
  let r := record_execution_db hospital_id execution_data now (s (dbName hospital_id))
  (r.1, r.2.1, Function.update s (dbName hospital_id) r.2.2)

/-- Model of `MongoDBManager.get_execution_history`. -/
def get_execution_history (hospital_id : String) (test_case_id : String)
    (limit : ℕ) (s : Store) : List Doc :=
  get_execution_history_db test_case_id limit (s (dbName hospital_id))

/-- Model of `MongoDBManager.get_flaky_tests`. -/
def get_flaky_tests (hospital_id : String) (pass_rate_min pass_rate_max : ℚ)
    (s : Store) : List FlakyGroup :=
  get_flaky_tests_db pass_rate_min pass_rate_max (s (dbName hospital_id))

/-- Model of `MongoDBManager.record_self_heal_decision`. -/
def record_self_heal_decision (hospital_id : String) (heal_data : Doc)
    (now : ℤ) (s : Store) : String × Doc × Store :=
  let r := record_self_heal_db hospital_id heal_data now (s (dbName hospital_id))
  (r.1, r.2.1, Function.update s (dbName hospital_id) r.2.2)

/-- Model of `MongoDBManager.get_pending_approvals`. -/
def get_pending_approvals (hospital_id : String) (s : Store) : List Doc :=
  get_pending_approvals_db (s (dbName hospital_id))

/-- Model of `MongoDBManager.approve_self_heal`. -/
def approve_self_heal (hospital_id : String) (heal_id : String)
    (engineer_notes : String) (now : ℤ) (s : Store) : Bool × Store :=
  let r := approve_self_heal_db heal_id engineer_notes now (s (dbName hospital_id))
  (r.1, Function.update s (dbName hospital_id) r.2)

/-- Model of `MongoDBManager.find_similar_past_heals`. -/
def find_similar_past_heals (hospital_id : String) (failure_reason : String)
    (limit : ℕ) (s : Store) : List Doc :=
  find_similar_past_heals_db failure_reason limit (s (dbName hospital_id))

/-- Model of `MongoDBManager.save_ui_snapshot`. -/
def save_ui_snapshot (hospital_id : String) (ui_data : Doc) (now : ℤ)
    (s : Store) : String × Doc × Store :=
  let r := save_ui_snapshot_db hospital_id ui_data now (s (dbName hospital_id))
  (r.1, r.2.1, Function.update s (dbName hospital_id) r.2.2)

/-- Model of `MongoDBManager.get_latest_ui_snapshot`. -/
def get_latest_ui_snapshot (hospital_id : String) (page_identifier : String)
    (s : Store) : Option Doc :=
  get_latest_ui_snapshot_db page_identifier (s (dbName hospital_id))

/-- Model of `MongoDBManager.detect_ui_changes`. -/
def detect_ui_changes (hospital_id : String) (page_identifier : String)
    (current_snapshot : Doc) (s : Store) : DiffResult :=
  detect_ui_changes_db page_identifier current_snapshot (s (dbName hospital_id))

/-- Model of `MongoDBManager.cache_llm_context`. -/
def cache_llm_context (hospital_id : String) (prompt_hash : String)
    (context_data : Value) (ttl_hours now : ℤ) (s : Store) : Store :=
  Function.update s (dbName hospital_id)
    (cache_llm_context_db prompt_hash context_data ttl_hours now
      (s (dbName hospital_id)))

/-- Model of `MongoDBManager.get_cached_context`. -/
def get_cached_context (hospital_id : String) (prompt_hash : String)
    (now : ℤ) (s : Store) : Option Value :=
  get_cached_context_db prompt_hash now (s (dbName hospital_id))

/-- Model of `MongoDBManager.get_self_heal_success_rate`. -/
def get_self_heal_success_rate (hospital_id : String) (days now : ℤ)
    (s : Store) : ℚ :=
  get_self_heal_success_rate_db days now (s (dbName hospital_id))

/-- Model of `MongoDBManager.get_test_execution_stats`. -/
def get_test_execution_stats (hospital_id : String) (days now : ℤ)
    (s : Store) : List StatEntry :=
  get_test_execution_stats_db days now (s (dbName hospital_id))

/-- Every state-changing operation of the manager, with its arguments. -/
inductive WriteOp where
  | createTC (test_case : Doc) (now : ℤ)
  | updateTC (test_id : String) (updates : Doc) (now : ℤ)
  | recordExec (execution_data : Doc) (now : ℤ)
  | recordHeal (heal_data : Doc) (now : ℤ)
  | approveHeal (heal_id : String) (engineer_notes : String) (now : ℤ)
  | saveSnapshot (ui_data : Doc) (now : ℤ)
  | cachePut (prompt_hash : String) (context_data : Value) (ttl_hours now : ℤ)

/-- Every read operation of the manager, with its arguments. -/
inductive ReadOp where
  | getTC (test_id : String)
  | execHistory (test_case_id : String) (limit : ℕ)
  | flaky (pass_rate_min pass_rate_max : ℚ)
  | pending
  | similar (failure_reason : String) (limit : ℕ)
  | latestSnap (page_identifier : String)
  | detectChanges (page_identifier : String) (current_snapshot : Doc)
  | cacheGet (prompt_hash : String) (now : ℤ)
  | healRate (days now : ℤ)
  | execStats (days now : ℤ)

/-- Common codomain for the read operations' results. -/
inductive ReadResult where
  | optDoc (d : Option Doc)
  | docs (ds : List Doc)
  | flaky (gs : List FlakyGroup)
  | diff (r : DiffResult)
  | optVal (v : Option Value)
  | rat (q : ℚ)
  | stats (xs : List StatEntry)

/-- The effect of a write operation on the tenant database it targets. -/
def writeDBOp (hospital_id : String) : WriteOp → TenantDB → TenantDB
  | .createTC tc now, db => (create_test_case_db hospital_id tc now db).2.2
  | .updateTC tid u now, db => (update_test_case_db tid u now db).2.2
  | .recordExec ed now, db => (record_execution_db hospital_id ed now db).2.2
  | .recordHeal hd now, db => (record_self_heal_db hospital_id hd now db).2.2
  | .approveHeal i notes now, db => (approve_self_heal_db i notes now db).2
  | .saveSnapshot ud now, db => (save_ui_snapshot_db hospital_id ud now db).2.2
  | .cachePut h cd ttl now, db => cache_llm_context_db h cd ttl now db

/-- Dispatch a read operation against one tenant database. -/
def readDBOp : ReadOp → TenantDB → ReadResult
  | .getTC tid, db => .optDoc (get_test_case_db tid db)
  | .execHistory tcid n, db => .docs (get_execution_history_db tcid n db)
  | .flaky pmin pmax, db => .flaky (get_flaky_tests_db pmin pmax db)
  | .pending, db => .docs (get_pending_approvals_db db)
  | .similar q n, db => .docs (find_similar_past_heals_db q n db)
  | .latestSnap page, db => .optDoc (get_latest_ui_snapshot_db page db)
  | .detectChanges page cur, db => .diff (detect_ui_changes_db page cur db)
  | .cacheGet h now, db => .optVal (get_cached_context_db h now db)
  | .healRate days now, db => .rat (get_self_heal_success_rate_db days now db)
  | .execStats days now, db => .stats (get_test_execution_stats_db days now db)

/-- Run a write operation through a manager constructed for
`hospital_id`: only the tenant's own database is touched. -/
def applyWrite (hospital_id : String) (w : WriteOp) (s : Store) : Store :=
  Function.update s (dbName hospital_id)
    (writeDBOp hospital_id w (s (dbName hospital_id)))

/-- Run a read operation through a manager constructed for `hospital_id`:
only the tenant's own database is consulted. -/
def evalRead (hospital_id : String) (r : ReadOp) (s : Store) : ReadResult :=
  readDBOp r (s (dbName hospital_id))


/-- A test-case document used to exercise duplicate creation. -/
def tcC2 : Doc := [("test_id", Value.str "t")]

/-- A store holding one test case for tenant `h`. -/
def sC2 : Store := (create_test_case "h" tcC2 0 emptyStore).2.2

/-- A store holding one freshly recorded self-heal decision. -/
def sC3a : Store :=
  (record_self_heal_decision "h"
    [("test_id", Value.str "T"), ("failure_reason", Value.str "x")] 0 emptyStore).2.2

/-- The same store after a first (successful) approval at time 0. -/
def sC3 : Store := (approve_self_heal "h" "0" "first" 0 sC3a).2

/-- The already-approved decision stored in `sC3`. -/
def dC3 : Doc := ((sC3 (dbName "h")).self_heal.docs).getD 0 []

/-- A store holding one recorded self-heal decision for tenant `h4`. -/
def sC4a : Store :=
  (record_self_heal_decision "h4" [("test_id", Value.str "T")] 0 emptyStore).2.2

/-- The same store after the decision was approved. -/
def sC4 : Store := (approve_self_heal "h4" "0" "ok" 0 sC4a).2

/-- The approved decision stored in `sC4`. -/
def dC4 : Doc := ((sC4 (dbName "h4")).self_heal.docs).getD 0 []

/-- Record one execution with the given test-case id, status and time. -/
def recEx (hid tcid st : String) (t : ℤ) (s : Store) : Store :=
  (record_execution hid
    [("test_case_id", Value.str tcid), ("status", Value.str st)] t s).2.2

/-- Five executions of test `X`, two of them passed (pass rate 2/5). -/
def sFlaky5 : Store :=
  recEx "hF" "X" "failed" 5 (recEx "hF" "X" "failed" 4 (recEx "hF" "X" "failed" 3
    (recEx "hF" "X" "passed" 2 (recEx "hF" "X" "passed" 1 emptyStore))))

/-- Only four executions of test `Y` (below the five-run floor). -/
def sFlaky4 : Store :=
  recEx "hF4" "Y" "failed" 4 (recEx "hF4" "Y" "failed" 3
    (recEx "hF4" "Y" "passed" 2 (recEx "hF4" "Y" "passed" 1 emptyStore)))

/-- A group with pass rate 3/4, used to exercise the upper bound. -/
def gC5 : FlakyGroup := ⟨some (Value.str "Z"), 10, 7, 3/4, none⟩

/-- A store holding one UI snapshot of page `p` with selectors a, b, c. -/
def sC6 : Store :=
  (save_ui_snapshot "h6"
    [("page_identifier", Value.str "p"), ("selectors", Value.strList ["a", "b", "c"])]
    1 emptyStore).2.2

/-- The snapshot stored in `sC6`. -/
def pC6 : Doc := ((sC6 (dbName "h6")).ui_snapshots.docs).getD 0 []

/-- A current snapshot with selectors b, c, d. -/
def curC6 : Doc := [("selectors", Value.strList ["b", "c", "d"])]

/-- A store with one cached context entry (put at time 0, TTL one hour). -/
def sC7 : Store := cache_llm_context "h7" "ph" (Value.str "ctx1") 1 0 emptyStore

/-- A store with one test case whose field `f` holds 1. -/
def sC9 : Store :=
  (create_test_case "h" [("test_id", Value.str "t"), ("f", Value.int 1)] 0 emptyStore).2.2

/-- A store (tenant `h2`) with one test case whose field `g` holds 1. -/
def sC9b : Store :=
  (create_test_case "h2" [("test_id", Value.str "t"), ("g", Value.int 1)] 0 emptyStore).2.2

/-- The test case stored in `sC9b`. -/
def dC9b : Doc := ((sC9b (dbName "h2")).test_cases.docs).getD 0 []

/-- A test-case document carrying a caller-chosen status. -/
def tcC10 : Doc := [("test_id", Value.str "w"), ("status", Value.str "draft")]

/-- A store in which `tcC10` was already created for tenant `hw`. -/
def sC10 : Store := (create_test_case "hw" tcC10 0 emptyStore).2.2

-- ==================== THEOREMS ====================

/-- Model of `applyWrite` agrees, case by case, with the state component of the
named manager operations (one source of truth for the claims below). -/
theorem applyWrite_eq (hid : String) (s : Store) :
    (∀ tc now, applyWrite hid (.createTC tc now) s = (create_test_case hid tc now s).2.2) ∧
    (∀ tid u now, applyWrite hid (.updateTC tid u now) s = (update_test_case hid tid u now s).2.2) ∧
    (∀ ed now, applyWrite hid (.recordExec ed now) s = (record_execution hid ed now s).2.2) ∧
    (∀ hd now, applyWrite hid (.recordHeal hd now) s = (record_self_heal_decision hid hd now s).2.2) ∧
    (∀ i notes now, applyWrite hid (.approveHeal i notes now) s = (approve_self_heal hid i notes now s).2) ∧
    (∀ ud now, applyWrite hid (.saveSnapshot ud now) s = (save_ui_snapshot hid ud now s).2.2) ∧
    (∀ h cd ttl now, applyWrite hid (.cachePut h cd ttl now) s = cache_llm_context hid h cd ttl now s) :=
  ⟨fun _ _ => rfl, fun _ _ _ => rfl, fun _ _ => rfl, fun _ _ => rfl,
   fun _ _ _ => rfl, fun _ _ => rfl, fun _ _ _ _ => rfl⟩

theorem getF_setF_self (d : Doc) (k : String) (v : Value) :
    getF (setF d k v) k = some v := by
  induction d with
  | nil => simp [setF, getF]
  | cons hd tl ih =>
      by_cases h : hd.1 = k
      · simp [setF, h, getF]
      · simp [setF, h, getF, ih]

theorem getF_setF_ne (d : Doc) (k' k : String) (v : Value) (h : k' ≠ k) :
    getF (setF d k' v) k = getF d k := by
  induction d with
  | nil => simp [setF, getF, h]
  | cons hd tl ih =>
      by_cases h2 : hd.1 = k'
      · simp [setF, h2, getF, h]
      · simp only [setF, h2, if_false, getF]
        by_cases h3 : hd.1 = k
        · simp [h3]
        · simp [h3, ih]

theorem lastVal_eq_none_of_not_mem (u : Doc) (k : String)
    (h : k ∉ u.map Prod.fst) : lastVal u k = none := by
  induction u with
  | nil => rfl
  | cons hd tl ih =>
      simp only [List.map_cons, List.mem_cons] at h
      push_neg at h
      simp [lastVal, ih h.2, Ne.symm h.1]

theorem getF_applySet (u : Doc) (d : Doc) (k : String) :
    getF (applySet u d) k =
      match lastVal u k with
      | some v => some v
      | none => getF d k := by
  induction u generalizing d with
  | nil => rfl
  | cons hd tl ih =>
      show getF (applySet tl (setF d hd.1 hd.2)) k = _
      rw [ih]
      cases htl : lastVal tl k with
      | some w => simp [lastVal, htl]
      | none =>
          by_cases hk : hd.1 = k
          · subst hk; simp [lastVal, htl, getF_setF_self]
          · simp [lastVal, htl, hk, getF_setF_ne _ _ _ _ hk]

theorem lastVal_setF_self (u : Doc) (k : String) (v : Value)
    (h : (u.map Prod.fst).Nodup) : lastVal (setF u k v) k = some v := by
  induction u with
  | nil => simp [setF, lastVal]
  | cons hd tl ih =>
      simp only [List.map_cons, List.nodup_cons] at h
      by_cases hk : hd.1 = k
      · subst hk
        have : lastVal tl hd.1 = none :=
          lastVal_eq_none_of_not_mem tl hd.1 h.1
        simp [setF, lastVal, this]
      · simp [setF, hk, lastVal, ih h.2]

theorem updateFirst_of_find?_eq_none (p : Doc → Bool) (f : Doc → Doc)
    (l : List Doc) (h : l.find? p = none) : updateFirst p f l = (l, false) := by
  induction l with
  | nil => rfl
  | cons d rest ih =>
      rw [List.find?_cons] at h
      cases hp : p d with
      | true => simp [hp] at h
      | false =>
          simp only [hp] at h
          simp [updateFirst, hp, ih h]

theorem updateFirst_of_find?_eq_some (p : Doc → Bool) (f : Doc → Doc)
    (l : List Doc) (d : Doc) (h : l.find? p = some d) :
    (updateFirst p f l).2 = decide (f d ≠ d) ∧ f d ∈ (updateFirst p f l).1 := by
  induction l with
  | nil => simp [List.find?] at h
  | cons a rest ih =>
      rw [List.find?_cons] at h
      cases hp : p a with
      | true =>
          simp only [hp] at h
          cases h
          simp [updateFirst, hp]
      | false =>
          simp only [hp] at h
          have := ih h
          simp [updateFirst, hp, this.1, this.2]

theorem updateFirst_mem (p : Doc → Bool) (f : Doc → Doc)
    (l : List Doc) (d : Doc) (hd : d ∈ l) :
    d ∈ (updateFirst p f l).1 ∨ f d ∈ (updateFirst p f l).1 := by
  induction l with
  | nil => cases hd
  | cons a rest ih =>
      rcases List.mem_cons.mp hd with h | h
      · subst h
        cases hp : p d with
        | true => right; simp [updateFirst, hp]
        | false => left; simp [updateFirst, hp]
      · cases hp : p a with
        | true => left; simp [updateFirst, hp, List.mem_cons_of_mem _ h]
        | false =>
            rcases ih h with h2 | h2
            · left; simp [updateFirst, hp, List.mem_cons_of_mem _ h2]
            · right; simp [updateFirst, hp, List.mem_cons_of_mem _ h2]

theorem dbName_inj {a b : String} (h : dbName a = dbName b) : a = b := by
  have h2 := congrArg String.data h
  simp only [dbName, String.data_append] at h2
  have h3 := List.append_cancel_left h2
  cases a; cases b; simp_all

theorem pickLatest_eq_none (l : List Doc) : pickLatest l = none ↔ l = [] := by
  cases l with
  | nil => simp [pickLatest]
  | cons d rest =>
      simp only [pickLatest]
      cases pickLatest rest with
      | none => simp
      | some m =>
          by_cases h : tsOf d < tsOf m <;> simp [h]

theorem pickLatest_mem (l : List Doc) (p : Doc) (h : pickLatest l = some p) :
    p ∈ l := by
  induction l with
  | nil => cases h
  | cons d rest ih =>
      simp only [pickLatest] at h
      cases hr : pickLatest rest with
      | none => rw [hr] at h; cases h; exact List.mem_cons_self _ _
      | some m =>
          rw [hr] at h
          have h' : (if tsOf d < tsOf m then some m else some d) = some p := h
          by_cases hlt : tsOf d < tsOf m
          · rw [if_pos hlt] at h'
            cases h'
            exact List.mem_cons_of_mem _ (ih hr)
          · rw [if_neg hlt] at h'
            cases h'
            exact List.mem_cons_self _ _

theorem pickLatest_max (l : List Doc) (p : Doc) (h : pickLatest l = some p) :
    ∀ q ∈ l, tsOf q ≤ tsOf p := by
  induction l generalizing p with
  | nil => cases h
  | cons d rest ih =>
      intro q hq
      simp only [pickLatest] at h
      cases hr : pickLatest rest with
      | none =>
          rw [hr] at h
          cases h
          rcases List.mem_cons.mp hq with h2 | h2
          · exact h2 ▸ le_refl _
          · rw [(pickLatest_eq_none rest).mp hr] at h2; cases h2
      | some m =>
          rw [hr] at h
          have h' : (if tsOf d < tsOf m then some m else some d) = some p := h
          by_cases hlt : tsOf d < tsOf m
          · rw [if_pos hlt] at h'
            cases h'
            rcases List.mem_cons.mp hq with h2 | h2
            · exact h2 ▸ le_of_lt hlt
            · exact ih _ hr q h2
          · rw [if_neg hlt] at h'
            cases h'
            rcases List.mem_cons.mp hq with h2 | h2
            · exact h2 ▸ le_refl _
            · exact le_trans (ih _ hr q h2) (not_lt.mp hlt)

/-- Claim C1: for every pair of distinct tenants A and B, every write
operation and every read operation, a read issued through the manager of
tenant B returns exactly the same result whether or not tenant A's write
happened — data written under A is never returned under B, even with
identical keys, because the two managers operate on distinct databases. -/
theorem tenant_isolation (A B : String) (hAB : A ≠ B) (w : WriteOp)
    (r : ReadOp) (s : Store) :
    evalRead B r (applyWrite A w s) = evalRead B r s := by
  show readDBOp r ((Function.update s (dbName A)
    (writeDBOp A w (s (dbName A)))) (dbName B)) = readDBOp r (s (dbName B))
  rw [Function.update_noteq (fun e => hAB (dbName_inj e).symm)]

/-- Witness for C1 at concrete tenants, write and read. -/
theorem tenant_isolation_witness :
    evalRead "client_B" (ReadOp.getTC "t")
      (applyWrite "client_A"
        (WriteOp.recordExec [("test_case_id", Value.str "t")] 0) emptyStore) =
    evalRead "client_B" (ReadOp.getTC "t") emptyStore :=
  tenant_isolation "client_A" "client_B" (by decide) _ _ _

/-- Claim C2: when some stored test case of the tenant already carries the
incoming `test_id`, `create_test_case` fails with `DuplicateKey` and the
stored state is completely unchanged. -/
theorem create_test_case_duplicate_unchanged (hid : String) (tc : Doc)
    (now : ℤ) (s : Store)
    (hdup : ∃ d ∈ (s (dbName hid)).test_cases.docs,
      getF d "test_id" = getF tc "test_id") :
    (create_test_case hid tc now s).1 = Except.error DBError.duplicateKey ∧
    (create_test_case hid tc now s).2.2 = s := by
  obtain ⟨d, hd, heq⟩ := hdup
  have hstamp : getF (stampTestCase hid now tc) "test_id" = getF tc "test_id" := by
    unfold stampTestCase
    rw [getF_setF_ne _ _ _ _ (by decide), getF_setF_ne _ _ _ _ (by decide),
      getF_setF_ne _ _ _ _ (by decide), getF_setF_ne _ _ _ _ (by decide)]
  have hany : (s (dbName hid)).test_cases.docs.any
      (fun d => decide (getF d "test_id" = getF (stampTestCase hid now tc) "test_id")) = true := by
    rw [List.any_eq_true]
    exact ⟨d, hd, decide_eq_true (by rw [hstamp]; exact heq)⟩
  have hc : create_test_case_db hid tc now (s (dbName hid)) =
      (Except.error DBError.duplicateKey, stampTestCase hid now tc, s (dbName hid)) := by
    simp only [create_test_case_db]
    rw [if_pos hany]
  constructor
  · simp only [create_test_case]
    rw [hc]
  · simp only [create_test_case]
    rw [hc]
    exact Function.update_eq_self _ _

/-- Witness for C2: creating `tcC2` a second time fails and leaves the
store as it was. -/
theorem create_test_case_duplicate_unchanged_witness :
    (create_test_case "h" tcC2 1 sC2).1 = Except.error DBError.duplicateKey ∧
    (create_test_case "h" tcC2 1 sC2).2.2 = sC2 :=
  create_test_case_duplicate_unchanged "h" tcC2 1 sC2 (by decide)

theorem writeDBOp_self_heal_mono (hid : String) (w : WriteOp) (db : TenantDB)
    (d : Doc) (hd : d ∈ db.self_heal.docs) :
    ∃ d' ∈ (writeDBOp hid w db).self_heal.docs,
      getF d' "_id" = getF d "_id" ∧
      (getF d' "engineer_approved" = getF d "engineer_approved" ∨
        getF d' "engineer_approved" = some (Value.bool true)) ∧
      (getF d "engineer_approved" = some (Value.bool true) →
        getF d' "engineer_approved" = some (Value.bool true)) := by
  cases w with
  | createTC tc now =>
      refine ⟨d, ?_, rfl, Or.inl rfl, fun h => h⟩
      simp only [writeDBOp, create_test_case_db]
      split
      · exact hd
      · exact hd
  | updateTC tid u now => exact ⟨d, hd, rfl, Or.inl rfl, fun h => h⟩
  | recordExec ed now => exact ⟨d, hd, rfl, Or.inl rfl, fun h => h⟩
  | recordHeal hd2 now =>
      refine ⟨d, ?_, rfl, Or.inl rfl, fun h => h⟩
      exact List.mem_append_left _ hd
  | approveHeal i notes now =>
      rcases updateFirst_mem (healPred i) (approveSet notes now)
          db.self_heal.docs d hd with h | h
      · exact ⟨d, h, rfl, Or.inl rfl, fun hh => hh⟩
      · have hid2 : getF (approveSet notes now d) "_id" = getF d "_id" := by
          unfold approveSet
          rw [getF_setF_ne _ _ _ _ (by decide), getF_setF_ne _ _ _ _ (by decide),
            getF_setF_ne _ _ _ _ (by decide)]
        have happ : getF (approveSet notes now d) "engineer_approved" =
            some (Value.bool true) := by
          unfold approveSet
          rw [getF_setF_ne _ _ _ _ (by decide), getF_setF_ne _ _ _ _ (by decide),
            getF_setF_self]
        exact ⟨approveSet notes now d, h, hid2, Or.inr happ, fun _ => happ⟩
  | saveSnapshot ud now => exact ⟨d, hd, rfl, Or.inl rfl, fun h => h⟩
  | cachePut h cd ttl now =>
      refine ⟨d, ?_, rfl, Or.inl rfl, fun hh => hh⟩
      simp only [writeDBOp, cache_llm_context_db]
      split
      · exact hd
      · exact hd

/-- Claim C4: approval is monotone.  After any write operation of any
manager, every stored self-heal decision is still present under its
`_id`, its `engineer_approved` flag is either unchanged or `true` (the
only possible transition is to `true`), and in particular a decision that
was approved stays approved — no operation ever resets it to `false`. -/
theorem engineer_approved_monotone (A B : String) (w : WriteOp) (s : Store)
    (d : Doc) (hd : d ∈ (s (dbName B)).self_heal.docs) :
    ∃ d' ∈ ((applyWrite A w s) (dbName B)).self_heal.docs,
      getF d' "_id" = getF d "_id" ∧
      (getF d' "engineer_approved" = getF d "engineer_approved" ∨
        getF d' "engineer_approved" = some (Value.bool true)) ∧
      (getF d "engineer_approved" = some (Value.bool true) →
        getF d' "engineer_approved" = some (Value.bool true)) := by
  by_cases hk : dbName B = dbName A
  · rw [hk] at hd
    show ∃ d' ∈ ((Function.update s (dbName A)
      (writeDBOp A w (s (dbName A)))) (dbName B)).self_heal.docs, _
    rw [hk, Function.update_same]
    exact writeDBOp_self_heal_mono A w (s (dbName A)) d hd
  · show ∃ d' ∈ ((Function.update s (dbName A)
      (writeDBOp A w (s (dbName A)))) (dbName B)).self_heal.docs, _
    rw [Function.update_noteq hk]
    exact ⟨d, hd, rfl, Or.inl rfl, fun h => h⟩

/-- Witness for C4: re-approving the already approved decision `dC4`
keeps it approved. -/
theorem engineer_approved_monotone_witness :
    ∃ d' ∈ ((applyWrite "h4" (WriteOp.approveHeal "0" "again" 5) sC4)
        (dbName "h4")).self_heal.docs,
      getF d' "_id" = getF dC4 "_id" ∧
      (getF d' "engineer_approved" = getF dC4 "engineer_approved" ∨
        getF d' "engineer_approved" = some (Value.bool true)) ∧
      (getF dC4 "engineer_approved" = some (Value.bool true) →
        getF d' "engineer_approved" = some (Value.bool true)) :=
  engineer_approved_monotone "h4" "h4" (WriteOp.approveHeal "0" "again" 5)
    sC4 dC4 (by decide)

/-- Counterexample to C3 as stated: `sC3` stores a decision that is
already approved (`engineer_approved = true`, `approved_at = 0`), yet a
second `approve_self_heal` call on it returns `true` — not `false` — and
re-stamps `approved_at` to the new time 5: the update is filtered on
`_id` alone, not conditioned on the decision being unapproved. -/
theorem approve_self_heal_already_approved_cex :
    getF dC3 "engineer_approved" = some (Value.bool true) ∧
    (approve_self_heal "h" "0" "second" 5 sC3).1 = true ∧
    getF ((((approve_self_heal "h" "0" "second" 5 sC3).2 (dbName "h")).self_heal.docs).getD 0 [])
      "approved_at" = some (Value.int 5) := by
  refine ⟨by decide, by decide, by decide⟩

/-- Claim C3, amended: `approve_self_heal` returns `false` (leaving the
store unchanged) when `heal_id` matches no stored decision; when a
decision matches, the `$set` is applied unconditionally — it sets
`engineer_approved`, stamps `approved_at`, attaches the notes — and the
call returns whether the document actually changed, so approving an
already-approved decision is not a no-op: it re-stamps `approved_at` and
overwrites the notes, returning `true` whenever the stored `approved_at`
differs from the new timestamp. -/
theorem approve_self_heal_amended (hid heal_id engineer_notes : String)
    (now : ℤ) (s : Store) :
    ((s (dbName hid)).self_heal.docs.find? (healPred heal_id) = none →
      (approve_self_heal hid heal_id engineer_notes now s).1 = false ∧
      (approve_self_heal hid heal_id engineer_notes now s).2 = s) ∧
    (∀ d, (s (dbName hid)).self_heal.docs.find? (healPred heal_id) = some d →
      ((approve_self_heal hid heal_id engineer_notes now s).1 = true ↔
        approveSet engineer_notes now d ≠ d) ∧
      approveSet engineer_notes now d ∈
        ((approve_self_heal hid heal_id engineer_notes now s).2 (dbName hid)).self_heal.docs ∧
      getF (approveSet engineer_notes now d) "engineer_approved" = some (Value.bool true) ∧
      getF (approveSet engineer_notes now d) "approved_at" = some (Value.int now) ∧
      getF (approveSet engineer_notes now d) "engineer_notes" =
        some (Value.str engineer_notes) ∧
      (getF d "approved_at" ≠ some (Value.int now) →
        (approve_self_heal hid heal_id engineer_notes now s).1 = true)) := by
  constructor
  · intro h
    have hu := updateFirst_of_find?_eq_none (healPred heal_id)
      (approveSet engineer_notes now) _ h
    constructor
    · show (updateFirst (healPred heal_id) (approveSet engineer_notes now)
        (s (dbName hid)).self_heal.docs).2 = false
      rw [hu]
    · show Function.update s (dbName hid)
        ⟨(s (dbName hid)).test_cases, (s (dbName hid)).executions,
          ⟨(updateFirst (healPred heal_id) (approveSet engineer_notes now)
            (s (dbName hid)).self_heal.docs).1, (s (dbName hid)).self_heal.nextId⟩,
          (s (dbName hid)).ui_snapshots, (s (dbName hid)).code_changes,
          (s (dbName hid)).llm_cache⟩ = s
      rw [hu]
      exact Function.update_eq_self _ _
  · intro d hfind
    obtain ⟨hbool, hmem⟩ := updateFirst_of_find?_eq_some (healPred heal_id)
      (approveSet engineer_notes now) _ d hfind
    have h1 : (approve_self_heal hid heal_id engineer_notes now s).1 =
        decide (approveSet engineer_notes now d ≠ d) := hbool
    have happ : getF (approveSet engineer_notes now d) "engineer_approved" =
        some (Value.bool true) := by
      unfold approveSet
      rw [getF_setF_ne _ _ _ _ (by decide), getF_setF_ne _ _ _ _ (by decide),
        getF_setF_self]
    have haa : getF (approveSet engineer_notes now d) "approved_at" =
        some (Value.int now) := by
      unfold approveSet
      rw [getF_setF_ne _ _ _ _ (by decide), getF_setF_self]
    have hnotes : getF (approveSet engineer_notes now d) "engineer_notes" =
        some (Value.str engineer_notes) := by
      unfold approveSet
      rw [getF_setF_self]
    have hiff : (approve_self_heal hid heal_id engineer_notes now s).1 = true ↔
        approveSet engineer_notes now d ≠ d := by
      rw [h1, decide_eq_true_eq]
    refine ⟨hiff, ?_, happ, haa, hnotes, ?_⟩
    · show approveSet engineer_notes now d ∈
        ((Function.update s (dbName hid) _) (dbName hid)).self_heal.docs
      rw [Function.update_same]
      exact hmem
    · intro hne
      exact hiff.mpr (fun heq => hne (by rw [← heq]; exact haa))

/-- Witness for C3 (amended): the second approval on the stored decision
`dC3` returns `true` because the stored `approved_at` (0) differs from
the new timestamp (5). -/
theorem approve_self_heal_amended_witness :
    (approve_self_heal "h" "0" "third" 7 sC3).1 = true := by
  have h := (approve_self_heal_amended "h" "0" "third" 7 sC3).2 dC3 (by rfl)
  exact h.2.2.2.2.2 (by decide)

/-- Counterexample to C9 as stated: in `sC9` the stored test case already
has `f = 1`, so updating it with exactly that value should be a no-op
returning `false` by the claim; the code still returns `true`, because
the always-refreshed `last_modified` (0 stored, 5 incoming) changes the
document. -/
theorem update_test_case_noop_returns_true_cex :
    getF (((sC9 (dbName "h")).test_cases.docs).getD 0 []) "f" = some (Value.int 1) ∧
    getF (((sC9 (dbName "h")).test_cases.docs).getD 0 []) "last_modified" =
      some (Value.int 0) ∧
    (update_test_case "h" "t" [("f", Value.int 1)] 5 sC9).1 = true := by
  refine ⟨by decide, by decide, by decide⟩

/-- Claim C9, amended: `update_test_case` merges the given fields into
the matched test case and always refreshes `last_modified`; it returns
`false` when `test_id` matches no document (leaving the store unchanged),
and otherwise returns whether the `$set` — including the refreshed
`last_modified` — actually changed the document.  A call whose given
fields already hold the given values therefore still returns `true`
whenever the refreshed `last_modified` differs from the stored one; it
returns `false` only when nothing at all changes. -/
theorem update_test_case_amended (hid test_id : String) (updates : Doc)
    (now : ℤ) (s : Store) :
    (update_test_case hid test_id updates now s).2.1 =
      setF updates "last_modified" (Value.int now) ∧
    ((s (dbName hid)).test_cases.docs.find? (tidPred test_id) = none →
      (update_test_case hid test_id updates now s).1 = false ∧
      (update_test_case hid test_id updates now s).2.2 = s) ∧
    (∀ d, (s (dbName hid)).test_cases.docs.find? (tidPred test_id) = some d →
      ((update_test_case hid test_id updates now s).1 = true ↔
        applySet (setF updates "last_modified" (Value.int now)) d ≠ d) ∧
      applySet (setF updates "last_modified" (Value.int now)) d ∈
        ((update_test_case hid test_id updates now s).2.2 (dbName hid)).test_cases.docs ∧
      (∀ k, getF (applySet (setF updates "last_modified" (Value.int now)) d) k =
        match lastVal (setF updates "last_modified" (Value.int now)) k with
        | some v => some v
        | none => getF d k) ∧
      ((updates.map Prod.fst).Nodup →
        getF (applySet (setF updates "last_modified" (Value.int now)) d)
          "last_modified" = some (Value.int now))) := by
  refine ⟨rfl, ?_, ?_⟩
  · intro h
    have hu := updateFirst_of_find?_eq_none (tidPred test_id)
      (applySet (setF updates "last_modified" (Value.int now))) _ h
    constructor
    · show (updateFirst (tidPred test_id)
        (applySet (setF updates "last_modified" (Value.int now)))
        (s (dbName hid)).test_cases.docs).2 = false
      rw [hu]
    · show Function.update s (dbName hid)
        ⟨⟨(updateFirst (tidPred test_id)
            (applySet (setF updates "last_modified" (Value.int now)))
            (s (dbName hid)).test_cases.docs).1, (s (dbName hid)).test_cases.nextId⟩,
          (s (dbName hid)).executions, (s (dbName hid)).self_heal,
          (s (dbName hid)).ui_snapshots, (s (dbName hid)).code_changes,
          (s (dbName hid)).llm_cache⟩ = s
      rw [hu]
      exact Function.update_eq_self _ _
  · intro d hfind
    obtain ⟨hbool, hmem⟩ := updateFirst_of_find?_eq_some (tidPred test_id)
      (applySet (setF updates "last_modified" (Value.int now))) _ d hfind
    have h1 : (update_test_case hid test_id updates now s).1 =
        decide (applySet (setF updates "last_modified" (Value.int now)) d ≠ d) := hbool
    refine ⟨by rw [h1, decide_eq_true_eq], ?_, ?_, ?_⟩
    · show applySet (setF updates "last_modified" (Value.int now)) d ∈
        ((Function.update s (dbName hid) _) (dbName hid)).test_cases.docs
      rw [Function.update_same]
      exact hmem
    · intro k
      exact getF_applySet _ d k
    · intro hnd
      rw [getF_applySet, lastVal_setF_self updates "last_modified" _ hnd]

/-- Witness for C9 (amended): updating the stored test case of `sC9b`
with a changed field value at a later time returns `true`. -/
theorem update_test_case_amended_witness :
    (update_test_case "h2" "t" [("g", Value.int 2)] 5 sC9b).1 = true := by
  have h := (update_test_case_amended "h2" "t" [("g", Value.int 2)] 5 sC9b).2.2
    dC9b (by rfl)
  exact h.1.mpr (by decide)

/-- Claim C10: every write operation mutates the caller-supplied dict in
place before persisting.  The argument dict handed back by each operation
equals the original updated with the tenant field and timestamps — with
`create_test_case` additionally overwriting any caller-provided `status`
by `"active"` — and for `create_test_case` this mutation is produced even
on the `DuplicateKey` failure path. -/
theorem write_ops_mutate_argument (hid : String) (now : ℤ) (s : Store) :
    (∀ tc, (create_test_case hid tc now s).2.1 = stampTestCase hid now tc ∧
      getF (create_test_case hid tc now s).2.1 "status" = some (Value.str "active") ∧
      getF (create_test_case hid tc now s).2.1 "hospital" = some (Value.str hid) ∧
      getF (create_test_case hid tc now s).2.1 "created_at" = some (Value.int now) ∧
      getF (create_test_case hid tc now s).2.1 "last_modified" = some (Value.int now)) ∧
    (∀ ed, (record_execution hid ed now s).2.1 = stampExecution hid now ed ∧
      getF (record_execution hid ed now s).2.1 "hospital" = some (Value.str hid) ∧
      getF (record_execution hid ed now s).2.1 "timestamp" = some (Value.int now)) ∧
    (∀ hd, (record_self_heal_decision hid hd now s).2.1 = stampHeal hid now hd ∧
      getF (record_self_heal_decision hid hd now s).2.1 "hospital" = some (Value.str hid) ∧
      getF (record_self_heal_decision hid hd now s).2.1 "timestamp" = some (Value.int now)) ∧
    (∀ ud, (save_ui_snapshot hid ud now s).2.1 = stampSnapshot hid now ud ∧
      getF (save_ui_snapshot hid ud now s).2.1 "hospital" = some (Value.str hid) ∧
      getF (save_ui_snapshot hid ud now s).2.1 "timestamp" = some (Value.int now)) ∧
    (∀ tc, (create_test_case hid tc now s).1 = Except.error DBError.duplicateKey →
      (create_test_case hid tc now s).2.1 = stampTestCase hid now tc) := by
  have hcreate : ∀ tc : Doc,
      (create_test_case hid tc now s).2.1 = stampTestCase hid now tc := by
    intro tc
    simp only [create_test_case, create_test_case_db]
    split
    · rfl
    · rfl
  refine ⟨?_, ?_, ?_, ?_, fun tc _ => hcreate tc⟩
  · intro tc
    refine ⟨hcreate tc, ?_, ?_, ?_, ?_⟩
    · rw [hcreate tc]
      exact getF_setF_self _ _ _
    · rw [hcreate tc]
      unfold stampTestCase
      rw [getF_setF_ne _ _ _ _ (by decide), getF_setF_ne _ _ _ _ (by decide),
        getF_setF_ne _ _ _ _ (by decide), getF_setF_self]
    · rw [hcreate tc]
      unfold stampTestCase
      rw [getF_setF_ne _ _ _ _ (by decide), getF_setF_ne _ _ _ _ (by decide),
        getF_setF_self]
    · rw [hcreate tc]
      unfold stampTestCase
      rw [getF_setF_ne _ _ _ _ (by decide), getF_setF_self]
  · intro ed
    refine ⟨rfl, ?_, ?_⟩
    · show getF (stampExecution hid now ed) "hospital" = some (Value.str hid)
      unfold stampExecution
      rw [getF_setF_ne _ _ _ _ (by decide), getF_setF_self]
    · show getF (stampExecution hid now ed) "timestamp" = some (Value.int now)
      unfold stampExecution
      rw [getF_setF_self]
  · intro hd
    refine ⟨rfl, ?_, ?_⟩
    · show getF (stampHeal hid now hd) "hospital" = some (Value.str hid)
      unfold stampHeal
      rw [getF_setF_ne _ _ _ _ (by decide), getF_setF_ne _ _ _ _ (by decide),
        getF_setF_self]
    · show getF (stampHeal hid now hd) "timestamp" = some (Value.int now)
      unfold stampHeal
      rw [getF_setF_ne _ _ _ _ (by decide), getF_setF_self]
  · intro ud
    refine ⟨rfl, ?_, ?_⟩
    · show getF (stampSnapshot hid now ud) "hospital" = some (Value.str hid)
      unfold stampSnapshot
      rw [getF_setF_ne _ _ _ _ (by decide), getF_setF_self]
    · show getF (stampSnapshot hid now ud) "timestamp" = some (Value.int now)
      unfold stampSnapshot
      rw [getF_setF_self]

/-- Witness for C10: the second creation of `tcC10` fails with
`DuplicateKey`, and the argument dict has still been stamped. -/
theorem write_ops_mutate_argument_witness :
    (create_test_case "hw" tcC10 1 sC10).2.1 = stampTestCase "hw" 1 tcC10 :=
  (write_ops_mutate_argument "hw" 1 sC10).2.2.2.2 tcC10 (by rfl)

/-- Claim C8: `get_self_heal_success_rate` is computed over exactly the
decisions whose timestamp lies at or after `now` minus the window, equals
approved count over total count there, and returns `0` — an ordinary
result, not an error — when the window is empty. -/
theorem get_self_heal_success_rate_spec (hid : String) (days now : ℤ)
    (s : Store) :
    (∀ d, d ∈ healWindow days now (s (dbName hid)) ↔
      d ∈ (s (dbName hid)).self_heal.docs ∧
        ∃ t : ℤ, getF d "timestamp" = some (Value.int t) ∧ now - days * 86400 ≤ t) ∧
    get_self_heal_success_rate hid days now s =
      (((healWindow days now (s (dbName hid))).filter
          (fun d => decide (getF d "engineer_approved" = some (Value.bool true)))).length : ℚ) /
        ((healWindow days now (s (dbName hid))).length : ℚ) ∧
    ((healWindow days now (s (dbName hid))).length = 0 →
      get_self_heal_success_rate hid days now s = 0) := by
  refine ⟨?_, ?_, ?_⟩
  · intro d
    rw [healWindow, List.mem_filter]
    constructor
    · rintro ⟨hmem, hts⟩
      refine ⟨hmem, ?_⟩
      cases hv : getF d "timestamp" with
      | none => rw [hv] at hts; cases hts
      | some v =>
          cases v with
          | int t =>
              rw [hv] at hts
              exact ⟨t, rfl, of_decide_eq_true hts⟩
          | str a => rw [hv] at hts; cases hts
          | bool b => rw [hv] at hts; cases hts
          | strList xs => rw [hv] at hts; cases hts
    · rintro ⟨hmem, t, ht, hle⟩
      exact ⟨hmem, by rw [ht]; exact decide_eq_true hle⟩
  · show get_self_heal_success_rate_db days now (s (dbName hid)) = _
    rw [get_self_heal_success_rate_db]
    split
    · rename_i h0
      rw [List.length_eq_zero] at h0
      rw [h0]
      simp
    · rfl
  · intro h
    show get_self_heal_success_rate_db days now (s (dbName hid)) = 0
    rw [get_self_heal_success_rate_db]
    rw [if_pos h]

/-- Witness for C8: the empty store has an empty window, so the success
rate is the explicit zero. -/
theorem get_self_heal_success_rate_spec_witness :
    get_self_heal_success_rate "h8" 30 0 emptyStore = 0 :=
  (get_self_heal_success_rate_spec "h8" 30 0 emptyStore).2.2 rfl

/-- Claim C6: with no previous snapshot for the page, `detect_ui_changes`
returns the first-observation result (`is_new = true`, empty changes).
Otherwise the previous snapshot is a stored snapshot of that page of
maximal timestamp, and the result reports `is_new = false`, plain
set-difference `removed` and `added` selector sets, `has_changes` true
exactly when one of them is non-empty, a changes list with a removed
entry iff `removed` is non-empty followed by an added entry iff `added`
is non-empty, and the previous snapshot's timestamp. -/
theorem detect_ui_changes_spec (hid page : String) (cur : Doc) (s : Store) :
    (get_latest_ui_snapshot hid page s = none →
      detect_ui_changes hid page cur s = ⟨true, none, [], none⟩) ∧
    (∀ p, get_latest_ui_snapshot hid page s = some p →
      (p ∈ (s (dbName hid)).ui_snapshots.docs ∧
        getF p "page_identifier" = some (Value.str page) ∧
        (∀ q ∈ (s (dbName hid)).ui_snapshots.docs,
          getF q "page_identifier" = some (Value.str page) → tsOf q ≤ tsOf p)) ∧
      detect_ui_changes hid page cur s =
        ⟨false,
          some (decide ((selectorsOf p).toFinset \ (selectorsOf cur).toFinset ≠ ∅ ∨
            (selectorsOf cur).toFinset \ (selectorsOf p).toFinset ≠ ∅)),
          (if (selectorsOf p).toFinset \ (selectorsOf cur).toFinset = ∅ then []
           else [⟨"removed", (selectorsOf p).toFinset \ (selectorsOf cur).toFinset⟩]) ++
          (if (selectorsOf cur).toFinset \ (selectorsOf p).toFinset = ∅ then []
           else [⟨"added", (selectorsOf cur).toFinset \ (selectorsOf p).toFinset⟩]),
          getF p "timestamp"⟩) := by
  constructor
  · intro h
    show detect_ui_changes_db page cur (s (dbName hid)) = _
    simp only [detect_ui_changes_db]
    rw [show get_latest_ui_snapshot_db page (s (dbName hid)) = none from h]
  · intro p hp
    have h'' : pickLatest ((s (dbName hid)).ui_snapshots.docs.filter
        (fun d => decide (getF d "page_identifier" = some (Value.str page)))) =
        some p := hp
    constructor
    · have hm := pickLatest_mem _ p h''
      rw [List.mem_filter] at hm
      refine ⟨hm.1, of_decide_eq_true hm.2, ?_⟩
      intro q hq hqp
      exact pickLatest_max _ p h'' q (List.mem_filter.mpr ⟨hq, decide_eq_true hqp⟩)
    · show detect_ui_changes_db page cur (s (dbName hid)) = _
      simp only [detect_ui_changes_db]
      rw [show get_latest_ui_snapshot_db page (s (dbName hid)) = some p from hp]
      by_cases h1 : (selectorsOf p).toFinset \ (selectorsOf cur).toFinset = ∅ <;>
        by_cases h2 : (selectorsOf cur).toFinset \ (selectorsOf p).toFinset = ∅ <;>
          simp [h1, h2]

/-- Witness for C6: with the stored snapshot of selectors a, b, c and a
current snapshot of selectors b, c, d, the diff is not new and carries
the stored snapshot's timestamp. -/
theorem detect_ui_changes_spec_witness :
    (detect_ui_changes "h6" "p" curC6 sC6).is_new = false ∧
    (detect_ui_changes "h6" "p" curC6 sC6).previous_timestamp = some (Value.int 1) := by
  have h := (detect_ui_changes_spec "h6" "p" curC6 sC6).2 pC6 (by rfl)
  rw [h.2]
  exact ⟨rfl, rfl⟩

theorem cache_find_updated (h : String) (sets : Doc) (t' e : ℤ)
    (hsets_ph : lastVal sets "prompt_hash" = none)
    (hsets_ea : lastVal sets "expires_at" = some (Value.int e))
    (docs : List Doc)
    (hnd : (docs.map (fun d => getF d "prompt_hash")).Nodup)
    (d0 : Doc) (hfind : docs.find? (hashPred h) = some d0) :
    (updateFirst (hashPred h) (applySet sets) docs).1.find?
      (fun d => hashPred h d && liveAt t' d) =
    if t' < e then some (applySet sets d0) else none := by
  induction docs with
  | nil => cases hfind
  | cons a rest ih =>
      rw [List.find?_cons] at hfind
      cases hp : hashPred h a with
      | true =>
          simp only [hp] at hfind
          cases hfind
          simp only [List.map_cons, List.nodup_cons] at hnd
          have hph_fa : getF (applySet sets d0) "prompt_hash" =
              some (Value.str h) := by
            rw [getF_applySet, hsets_ph]
            exact of_decide_eq_true hp
          have hea_fa : getF (applySet sets d0) "expires_at" =
              some (Value.int e) := by
            rw [getF_applySet, hsets_ea]
          have h1 : hashPred h (applySet sets d0) = true := by
            unfold hashPred
            rw [hph_fa]
            exact decide_eq_true rfl
          have h2 : liveAt t' (applySet sets d0) = decide (t' < e) := by
            unfold liveAt
            rw [hea_fa]
          have hu : (updateFirst (hashPred h) (applySet sets) (d0 :: rest)).1 =
              applySet sets d0 :: rest := by
            simp only [updateFirst]
            rw [if_pos hp]
          rw [hu, List.find?_cons]
          by_cases hlt : t' < e
          · simp [h1, h2, hlt]
          · have hnone : rest.find? (fun d => hashPred h d && liveAt t' d) = none := by
              rw [List.find?_eq_none]
              intro x hx hqx
              rw [Bool.and_eq_true] at hqx
              have hxph : getF x "prompt_hash" = some (Value.str h) :=
                of_decide_eq_true hqx.1
              have haph : getF d0 "prompt_hash" = some (Value.str h) :=
                of_decide_eq_true hp
              apply hnd.1
              rw [haph, ← hxph]
              exact List.mem_map_of_mem (fun d => getF d "prompt_hash") hx
            simp [h1, h2, hlt, hnone]
      | false =>
          simp only [hp] at hfind
          simp only [List.map_cons, List.nodup_cons] at hnd
          have hu : (updateFirst (hashPred h) (applySet sets) (a :: rest)).1 =
              a :: (updateFirst (hashPred h) (applySet sets) rest).1 := by
            simp only [updateFirst]
            rw [if_neg (by rw [hp]; exact Bool.false_ne_true)]
          rw [hu, List.find?_cons]
          have hq : (hashPred h a && liveAt t' a) = false := by
            rw [hp]
            rfl
          rw [hq]
          exact ih hnd.2 hfind

theorem cache_find_appended (h : String) (t' e : ℤ) (newdoc : Doc)
    (docs : List Doc) (hnone : docs.find? (hashPred h) = none)
    (hph : getF newdoc "prompt_hash" = some (Value.str h))
    (hea : getF newdoc "expires_at" = some (Value.int e)) :
    (docs ++ [newdoc]).find? (fun d => hashPred h d && liveAt t' d) =
      if t' < e then some newdoc else none := by
  rw [List.find?_append]
  have h0 : docs.find? (fun d => hashPred h d && liveAt t' d) = none := by
    rw [List.find?_eq_none]
    rw [List.find?_eq_none] at hnone
    intro x hx hqx
    rw [Bool.and_eq_true] at hqx
    exact hnone x hx hqx.1
  rw [h0]
  have h1 : hashPred h newdoc = true := by
    unfold hashPred
    rw [hph]
    exact decide_eq_true rfl
  have h2 : liveAt t' newdoc = decide (t' < e) := by
    unfold liveAt
    rw [hea]
  by_cases hlt : t' < e
  · simp [List.find?_cons, h1, h2, hlt]
  · simp [List.find?_cons, h1, h2, hlt]

theorem cache_find_of_mem (h : String) (t' : ℤ) (docs : List Doc)
    (hnd : (docs.map (fun d => getF d "prompt_hash")).Nodup)
    (e0 : Doc) (he : e0 ∈ docs)
    (hph : getF e0 "prompt_hash" = some (Value.str h))
    (hlive : liveAt t' e0 = true) :
    docs.find? (fun d => hashPred h d && liveAt t' d) = some e0 := by
  induction docs with
  | nil => cases he
  | cons a rest ih =>
      simp only [List.map_cons, List.nodup_cons] at hnd
      rcases List.mem_cons.mp he with rfl | hmem
      · have hq : (hashPred h e0 && liveAt t' e0) = true := by
          unfold hashPred
          rw [hph, hlive]
          simp
        rw [List.find?_cons, hq]
      · have hne : (hashPred h a && liveAt t' a) = false := by
          cases hpa : hashPred h a with
          | false => rfl
          | true =>
              exfalso
              apply hnd.1
              rw [of_decide_eq_true hpa, ← hph]
              exact List.mem_map_of_mem (fun d => getF d "prompt_hash") hmem
        rw [List.find?_cons, hne]
        exact ih hnd.2 hmem

/-- Claim C7: context-cache TTL semantics.  Under the cache invariant
that each `prompt_hash` is stored at most once (which puts maintain),
a put upserts by `prompt_hash` and sets `expires_at` to `now` plus
`ttl_hours` hours, so a get at any later time returns exactly the new
payload while that expiry lies in the future and absent (a plain miss,
never an error) once it has passed; and in general a get returns a
payload exactly when a stored entry matches the hash with
`expires_at > now`. -/
theorem llm_cache_ttl_spec (hid prompt_hash : String) (context_data : Value)
    (ttl_hours now : ℤ) (s : Store)
    (hnd : ((s (dbName hid)).llm_cache.docs.map
      (fun d => getF d "prompt_hash")).Nodup) :
    (∀ t', get_cached_context hid prompt_hash t'
        (cache_llm_context hid prompt_hash context_data ttl_hours now s) =
      if t' < now + ttl_hours * 3600 then some context_data else none) ∧
    (∀ x t', get_cached_context hid prompt_hash t' s = some x ↔
      ∃ e ∈ (s (dbName hid)).llm_cache.docs,
        getF e "prompt_hash" = some (Value.str prompt_hash) ∧
        (∃ exp : ℤ, getF e "expires_at" = some (Value.int exp) ∧ t' < exp) ∧
        getF e "context_data" = some x) := by
  constructor
  · intro t'
    show get_cached_context_db prompt_hash t'
      ((Function.update s (dbName hid)
        (cache_llm_context_db prompt_hash context_data ttl_hours now
          (s (dbName hid)))) (dbName hid)) = _
    rw [Function.update_same]
    cases hfind : (s (dbName hid)).llm_cache.docs.find? (hashPred prompt_hash) with
    | some d0 =>
        have hdb : cache_llm_context_db prompt_hash context_data ttl_hours now
            (s (dbName hid)) =
            { s (dbName hid) with llm_cache :=
              ⟨(updateFirst (hashPred prompt_hash)
                  (applySet (cacheSets context_data ttl_hours now))
                  (s (dbName hid)).llm_cache.docs).1,
                (s (dbName hid)).llm_cache.nextId⟩ } := by
          simp only [cache_llm_context_db]
          rw [if_pos (by rw [hfind]; rfl)]
        rw [hdb]
        show ((updateFirst (hashPred prompt_hash)
            (applySet (cacheSets context_data ttl_hours now))
            (s (dbName hid)).llm_cache.docs).1.find?
          (fun d => hashPred prompt_hash d && liveAt t' d)).bind
            (fun d => getF d "context_data") = _
        rw [cache_find_updated prompt_hash (cacheSets context_data ttl_hours now)
          t' (now + ttl_hours * 3600) rfl rfl _ hnd d0 hfind]
        by_cases hlt : t' < now + ttl_hours * 3600
        · rw [if_pos hlt, if_pos hlt]
          show getF (applySet (cacheSets context_data ttl_hours now) d0)
            "context_data" = some context_data
          rw [getF_applySet]
          rfl
        · rw [if_neg hlt, if_neg hlt]
          rfl
    | none =>
        have hdb : cache_llm_context_db prompt_hash context_data ttl_hours now
            (s (dbName hid)) =
            { s (dbName hid) with llm_cache :=
              ((s (dbName hid)).llm_cache.insertOne
                (applySet (cacheSets context_data ttl_hours now)
                  [("prompt_hash", Value.str prompt_hash)])).2 } := by
          simp only [cache_llm_context_db]
          rw [if_neg (by rw [hfind]; simp)]
        rw [hdb]
        show (((s (dbName hid)).llm_cache.insertOne
            (applySet (cacheSets context_data ttl_hours now)
              [("prompt_hash", Value.str prompt_hash)])).2.docs.find?
          (fun d => hashPred prompt_hash d && liveAt t' d)).bind
            (fun d => getF d "context_data") = _
        have hins : (((s (dbName hid)).llm_cache.insertOne
            (applySet (cacheSets context_data ttl_hours now)
              [("prompt_hash", Value.str prompt_hash)])).2).docs =
            (s (dbName hid)).llm_cache.docs ++
              [setF (applySet (cacheSets context_data ttl_hours now)
                  [("prompt_hash", Value.str prompt_hash)]) "_id"
                (Value.str (toString (s (dbName hid)).llm_cache.nextId))] := rfl
        rw [hins]
        have hphn : getF (setF (applySet (cacheSets context_data ttl_hours now)
            [("prompt_hash", Value.str prompt_hash)]) "_id"
            (Value.str (toString (s (dbName hid)).llm_cache.nextId)))
            "prompt_hash" = some (Value.str prompt_hash) := by
          rw [getF_setF_ne _ _ _ _ (by decide), getF_applySet]
          rfl
        have hean : getF (setF (applySet (cacheSets context_data ttl_hours now)
            [("prompt_hash", Value.str prompt_hash)]) "_id"
            (Value.str (toString (s (dbName hid)).llm_cache.nextId)))
            "expires_at" = some (Value.int (now + ttl_hours * 3600)) := by
          rw [getF_setF_ne _ _ _ _ (by decide), getF_applySet]
          rfl
        rw [cache_find_appended prompt_hash t' (now + ttl_hours * 3600) _ _
          hfind hphn hean]
        by_cases hlt : t' < now + ttl_hours * 3600
        · rw [if_pos hlt, if_pos hlt]
          show getF (setF (applySet (cacheSets context_data ttl_hours now)
            [("prompt_hash", Value.str prompt_hash)]) "_id"
            (Value.str (toString (s (dbName hid)).llm_cache.nextId)))
            "context_data" = some context_data
          rw [getF_setF_ne _ _ _ _ (by decide), getF_applySet]
          rfl
        · rw [if_neg hlt, if_neg hlt]
          rfl
  · intro x t'
    constructor
    · intro hget
      rw [show get_cached_context hid prompt_hash t' s =
        ((s (dbName hid)).llm_cache.docs.find?
          (fun d => hashPred prompt_hash d && liveAt t' d)).bind
          (fun d => getF d "context_data") from rfl] at hget
      rw [Option.bind_eq_some] at hget
      obtain ⟨e0, hfind, hcd⟩ := hget
      have hmem := List.mem_of_find?_eq_some hfind
      have hq := List.find?_some hfind
      rw [Bool.and_eq_true] at hq
      have hph := of_decide_eq_true hq.1
      refine ⟨e0, hmem, hph, ?_, hcd⟩
      have hlive := hq.2
      unfold liveAt at hlive
      cases hv : getF e0 "expires_at" with
      | none => rw [hv] at hlive; cases hlive
      | some v =>
          cases v with
          | int ex =>
              rw [hv] at hlive
              exact ⟨ex, rfl, of_decide_eq_true hlive⟩
          | str a => rw [hv] at hlive; cases hlive
          | bool b => rw [hv] at hlive; cases hlive
          | strList xs => rw [hv] at hlive; cases hlive
    · rintro ⟨e0, hmem, hph, ⟨ex, hea, hlt⟩, hcd⟩
      have hlive : liveAt t' e0 = true := by
        unfold liveAt
        rw [hea]
        exact decide_eq_true hlt
      show ((s (dbName hid)).llm_cache.docs.find?
        (fun d => hashPred prompt_hash d && liveAt t' d)).bind
        (fun d => getF d "context_data") = some x
      rw [cache_find_of_mem prompt_hash t' _ hnd e0 hmem hph hlive]
      exact hcd

/-- Witness for C7: after overwriting the cached entry of `sC7` at time
10 with a 2-hour TTL, a get before expiry returns the new payload and a
get after expiry misses. -/
theorem llm_cache_ttl_spec_witness :
    get_cached_context "h7" "ph" 100
      (cache_llm_context "h7" "ph" (Value.str "ctx2") 2 10 sC7) =
      some (Value.str "ctx2") ∧
    get_cached_context "h7" "ph" 99999
      (cache_llm_context "h7" "ph" (Value.str "ctx2") 2 10 sC7) = none := by
  have h := (llm_cache_ttl_spec "h7" "ph" (Value.str "ctx2") 2 10 sC7 (by decide)).1
  exact ⟨(h 100).trans (if_pos (by decide)), (h 99999).trans (if_neg (by decide))⟩

theorem mem_get_flaky_tests (hid : String) (pmin pmax : ℚ) (s : Store)
    (g : FlakyGroup) :
    g ∈ get_flaky_tests hid pmin pmax s ↔
      ((∃ k ∈ ((s (dbName hid)).executions.docs.map
          (fun d => getF d "test_case_id")).dedup,
        g = mkGroup k (s (dbName hid)).executions.docs) ∧
      pmin ≤ g.pass_rate ∧ g.pass_rate ≤ pmax ∧ 5 ≤ g.total_runs) := by
  rw [show get_flaky_tests hid pmin pmax s = List.insertionSort flakyLE
    ((((s (dbName hid)).executions.docs.map
        (fun d => getF d "test_case_id")).dedup.map
      (fun k => mkGroup k (s (dbName hid)).executions.docs)).filter
      (fun g => decide (pmin ≤ g.pass_rate) && decide (g.pass_rate ≤ pmax) &&
        decide (5 ≤ g.total_runs))) from rfl]
  rw [(List.perm_insertionSort flakyLE _).mem_iff]
  rw [List.mem_filter, List.mem_map]
  simp only [Bool.and_eq_true, decide_eq_true_eq]
  constructor
  · rintro ⟨⟨k, hk, hkg⟩, ⟨h1, h2⟩, h3⟩
    exact ⟨⟨k, hk, hkg.symm⟩, h1, h2, h3⟩
  · rintro ⟨⟨k, hk, hkg⟩, h1, h2, h3⟩
    exact ⟨⟨k, hk, hkg.symm⟩, ⟨h1, h2⟩, h3⟩

/-- Claim C5: `get_flaky_tests` groups all executions by `test_case_id`
(pass rate is passed over total, latest execution the maximum timestamp
of the group), retains exactly the groups with at least 5 runs and pass
rate inside the inclusive band, and returns them sorted by ascending pass
rate.  At the boundaries: a test with 5 runs and 2 passes (rate 2/5) is
kept for the band 3/10 to 7/10, a test with only 4 runs is dropped, and
any group of pass rate 3/4 is dropped at upper bound 7/10. -/
theorem get_flaky_tests_spec (hid : String) (pmin pmax : ℚ) (s : Store) :
    (∀ g, g ∈ get_flaky_tests hid pmin pmax s ↔
      ((∃ k ∈ ((s (dbName hid)).executions.docs.map
          (fun d => getF d "test_case_id")).dedup,
        g = mkGroup k (s (dbName hid)).executions.docs) ∧
      pmin ≤ g.pass_rate ∧ g.pass_rate ≤ pmax ∧ 5 ≤ g.total_runs)) ∧
    (∀ k execs, (mkGroup k execs).pass_rate =
        ((mkGroup k execs).pass_count : ℚ) / ((mkGroup k execs).total_runs : ℚ) ∧
      (mkGroup k execs).total_runs =
        (execs.filter (fun d => decide (getF d "test_case_id" = k))).length ∧
      (mkGroup k execs).pass_count =
        ((execs.filter (fun d => decide (getF d "test_case_id" = k))).filter
          (fun d => decide (getF d "status" = some (Value.str "passed")))).length ∧
      (mkGroup k execs).latest_execution =
        maxTs (execs.filter (fun d => decide (getF d "test_case_id" = k)))) ∧
    List.Sorted flakyLE (get_flaky_tests hid pmin pmax s) ∧
    (∀ g : FlakyGroup, g.pass_rate = 3/4 →
      g ∉ get_flaky_tests hid (3/10) (7/10) s) ∧
    (∃ g ∈ get_flaky_tests "hF" (3/10) (7/10) sFlaky5,
      g.id = some (Value.str "X") ∧ g.total_runs = 5 ∧ g.pass_count = 2) ∧
    get_flaky_tests "hF4" (3/10) (7/10) sFlaky4 = [] := by
  refine ⟨fun g => mem_get_flaky_tests hid pmin pmax s g, ?_, ?_, ?_, ?_, ?_⟩
  · intro k execs
    exact ⟨rfl, rfl, rfl, rfl⟩
  · exact List.sorted_insertionSort flakyLE _
  · intro g hpr hmem
    rw [mem_get_flaky_tests] at hmem
    have h2 := hmem.2.2.1
    rw [hpr] at h2
    norm_num at h2
  · refine ⟨mkGroup (some (Value.str "X"))
      (sFlaky5 (dbName "hF")).executions.docs, ?_, rfl, by decide, by decide⟩
    rw [mem_get_flaky_tests]
    have hpr : (mkGroup (some (Value.str "X"))
        (sFlaky5 (dbName "hF")).executions.docs).pass_rate = (2 : ℚ) / (5 : ℚ) := by
      have ht : ((sFlaky5 (dbName "hF")).executions.docs.filter
          (fun d => decide (getF d "test_case_id" = some (Value.str "X")))).length = 5 := by
        decide
      have hp2 : (((sFlaky5 (dbName "hF")).executions.docs.filter
          (fun d => decide (getF d "test_case_id" = some (Value.str "X")))).filter
          (fun d => decide (getF d "status" = some (Value.str "passed")))).length = 2 := by
        decide
      show ((((sFlaky5 (dbName "hF")).executions.docs.filter
          (fun d => decide (getF d "test_case_id" = some (Value.str "X")))).filter
          (fun d => decide (getF d "status" = some (Value.str "passed")))).length : ℚ) /
        (((sFlaky5 (dbName "hF")).executions.docs.filter
          (fun d => decide (getF d "test_case_id" = some (Value.str "X")))).length : ℚ) = _
      rw [ht, hp2]
      norm_num
    refine ⟨⟨some (Value.str "X"), by decide, rfl⟩, ?_, ?_, by decide⟩
    · rw [hpr]
      norm_num
    · rw [hpr]
      norm_num
  · rw [List.eq_nil_iff_forall_not_mem]
    intro g hg
    rw [mem_get_flaky_tests] at hg
    obtain ⟨⟨k, hk, hkg⟩, _hmin, _hmax, h5⟩ := hg
    have hkeys : ((sFlaky4 (dbName "hF4")).executions.docs.map
        (fun d => getF d "test_case_id")).dedup = [some (Value.str "Y")] := by
      decide
    rw [hkeys] at hk
    have hk2 : k = some (Value.str "Y") := List.mem_singleton.mp hk
    subst hk2
    rw [hkg] at h5
    have h4 : (mkGroup (some (Value.str "Y"))
        (sFlaky4 (dbName "hF4")).executions.docs).total_runs = 4 := by decide
    rw [h4] at h5
    omega

/-- Witness for C5: a group of pass rate 3/4 is never in the flaky list
for the band 3/10 to 7/10. -/
theorem get_flaky_tests_spec_witness :
    gC5 ∉ get_flaky_tests "hF" (3/10) (7/10) sFlaky5 :=
  (get_flaky_tests_spec "hF" (3/10) (7/10) sFlaky5).2.2.2.1 gC5 rfl
